import Mathlib

/-!
Shallow embedding of the irc_sub IRC server (SRC/*.cpp) and proofs about its
channel/membership model, JOIN/MODE/TOPIC/NICK handlers and message parser.

`std::map<std::string, T>` values are embedded as key-sorted association
lists (`List (String × T)`); `std::map` keeps keys unique and sorted, so
`begin()` is the head and erasing a key is removing every entry with that
key.  Reply-format macros live in headers that are not part of the sources,
so replies are embedded as an abstract inductive carrying the arguments the
call sites pass.
-/

namespace IrcSub

/-! ## Ordered association maps (std::map) -/

/-- Lexicographic comparison on character lists, the order of
`std::string::operator<` (byte order; codepoint order coincides on the
ASCII data the server handles). -/
def charListLt : List Char → List Char → Bool
  | [], [] => false
  | [], _ :: _ => true
  | _ :: _, [] => false
  | x :: xs, y :: ys =>
    if x.toNat < y.toNat then true
    else if y.toNat < x.toNat then false
    else charListLt xs ys

/-- `std::string` key order of `std::map<std::string, T>`. -/
def strLt (a b : String) : Bool := charListLt a.data b.data

/-- Lookup in an association map (`std::map::find`). -/
def mapFind (k : String) : List (String × α) → Option α
  | [] => none
  | (k', v) :: rest => if k = k' then some v else mapFind k rest

/-- Ordered insert-or-assign (`std::map::operator[]` followed by assignment). -/
def mapInsert (k : String) (v : α) : List (String × α) → List (String × α)
  | [] => [(k, v)]
  | (k', v') :: rest =>
    if strLt k k' then (k, v) :: (k', v') :: rest
    else if k = k' then (k, v) :: rest
    else (k', v') :: mapInsert k v rest

/-- Erase a key (`std::map::erase`); keys are unique in a `std::map`, so
removing every entry with the key is the same operation. -/
def mapErase (k : String) (m : List (String × α)) : List (String × α) :=
  m.filter (fun p => p.1 ≠ k)

/-- Rekeying step shared by the three maps of `Channel::updateNickname`. -/
def rekeyMap (o n : String) (m : List (String × α)) : List (String × α) :=
  match mapFind o m with
  | some c => mapInsert n c (mapErase o m)
  | none => m

/-! ## String helpers from the sources -/

/-- The whitespace set of `ft_trim` / `ParseMessage::ft_trim`: `" \n\r\t"`. -/
def isTrimChar (c : Char) : Bool := c = ' ' ∨ c = '\n' ∨ c = '\r' ∨ c = '\t'

/-- `ft_trim`: strip leading and trailing characters of `" \n\r\t"`. -/
def ft_trim (s : String) : String :=
  String.mk (((s.data.dropWhile isTrimChar).reverse.dropWhile isTrimChar).reverse)

/-- Split on a character class, dropping empty words; shared shape of
`ft_split` and of `istringstream >> token` extraction. -/
def splitBy (p : Char → Bool) : List Char → List Char → List String
  | [], w => if w = [] then [] else [String.mk w.reverse]
  | c :: rest, w =>
    if p c then
      (if w = [] then splitBy p rest [] else String.mk w.reverse :: splitBy p rest [])
    else splitBy p rest (c :: w)

/-- `ft_split(str, delimiter)`: split on one delimiter, empty parts dropped. -/
def ft_split (s : String) (d : Char) : List String :=
  splitBy (fun c => c = d) s.data []

/-- Whitespace of `std::istringstream >> token` (C locale `isspace`). -/
def isCppSpace (c : Char) : Bool :=
  c = ' ' ∨ c = '\t' ∨ c = '\n' ∨ c = '\x0b' ∨ c = '\x0c' ∨ c = '\r'

/-- Token extraction of `iss >> token` over a whole string. -/
def tokenize (s : String) : List String := splitBy isCppSpace s.data []

/-- `s[0]` through `std::string::operator[]`: the null character when `s` is
empty (C++11 guarantees `s[s.size()] == '\0'`). -/
def cpp_at0 (s : String) : Char := s.data.headD (Char.ofNat 0)

/-- `Server::isAlphanumeric`: every character passes `std::isalnum`
(vacuously true for the empty string). -/
def isAlphanumeric (s : String) : Bool := s.data.all (fun c => c.isAlphanum)

/-- Digit-accumulation loop of `std::atoi`. -/
def atoiLoop : List Char → Int → Int
  | [], acc => acc
  | c :: rest, acc =>
    if c.isDigit then atoiLoop rest (acc * 10 + ((c.toNat : Int) - 48)) else acc

/-- `std::atoi`: skip whitespace, optional sign, then digits. -/
def cppAtoi (s : String) : Int :=
  match s.data.dropWhile isCppSpace with
  | '-' :: rest => - atoiLoop rest 0
  | '+' :: rest => atoiLoop rest 0
  | cs => atoiLoop cs 0

/-- First index at which `needle` occurs in the haystack
(`std::string::find`). -/
def strFind (needle : List Char) : List Char → Option Nat
  | [] => if needle.isPrefixOf [] then some 0 else none
  | c :: rest =>
    if needle.isPrefixOf (c :: rest) then some 0
    else (strFind needle rest).map (· + 1)

/-! ## Data model: clients, modes, channels -/

/-- Snapshot of the fields of a `Client` the channel logic reads; `cid`
stands for the object identity of the `Client*`. -/
structure CClient where
  cid : Nat
  fd : Int
  nick : String
  user : String
deriving DecidableEq, Repr

/-- The channel `modes` map: it always holds exactly the keys
`'i','t','k','o','l'` (set in the constructor). -/
structure Modes where
  i : Bool
  t : Bool
  k : Bool
  o : Bool
  l : Bool
deriving DecidableEq, Repr

/-- `modes.find(c)->second` with the `find(c) == end()` fallback `false`. -/
def Modes.get (m : Modes) (c : Char) : Bool :=
  if c = 'i' then m.i
  else if c = 't' then m.t
  else if c = 'k' then m.k
  else if c = 'o' then m.o
  else if c = 'l' then m.l
  else false

/-- Assignment `modes[c] = b` for the five materialized keys. -/
def Modes.set (m : Modes) (c : Char) (b : Bool) : Modes :=
  if c = 'i' then { m with i := b }
  else if c = 't' then { m with t := b }
  else if c = 'k' then { m with k := b }
  else if c = 'o' then { m with o := b }
  else if c = 'l' then { m with l := b }
  else m

/-- `Channel::getModes`: the set flags in `std::map<char,_>` key order
(`i < k < l < o < t`), `"+"`-prefixed when non-empty. -/
def Modes.modesString (m : Modes) : String :=
  let r := (if m.i then "i" else "") ++ (if m.k then "k" else "") ++
           (if m.l then "l" else "") ++ (if m.o then "o" else "") ++
           (if m.t then "t" else "")
  if r = "" then "" else "+" ++ r

/-- The `Channel` record: membership maps, modes, topic, key, user limit. -/
structure Channel where
  channelName : String
  users : List (String × CClient)
  operators : List (String × CClient)
  inviteList : List (String × CClient)
  modes : Modes
  key : String
  userLimit : Int
  topic : String
deriving DecidableEq, Repr

namespace Channel

/-- `Channel::isClientInChannel`. -/
def isClientInChannel (ch : Channel) (nickname : String) : Bool :=
  (mapFind nickname ch.users).isSome

/-- `Channel::isInvited`. -/
def isInvited (ch : Channel) (nickname : String) : Bool :=
  (mapFind nickname ch.inviteList).isSome

/-- `Channel::isOperator`. -/
def isOperator (ch : Channel) (nickname : String) : Bool :=
  (mapFind nickname ch.operators).isSome

/-- `Channel::checkMode`. -/
def checkMode (ch : Channel) (c : Char) : Bool := ch.modes.get c

/-- `Channel::setMode`: returns `false` and changes nothing when the flag
already has the requested value, else flips it and returns `true`. -/
def setMode (ch : Channel) (c : Char) (b : Bool) : Channel × Bool :=
  if b = ch.modes.get c then (ch, false)
  else ({ ch with modes := ch.modes.set c b }, true)

/-- The `Channel(channelName, client)` constructor: creator is sole user and
operator, all five flags initialized `false`, then `setMode('t', true)`. -/
def mkChannel (name : String) (c : CClient) : Channel :=
  let ch : Channel :=
    { channelName := name
      users := [(c.nick, c)]
      operators := [(c.nick, c)]
      inviteList := []
      modes := ⟨false, false, false, false, false⟩
      key := ""
      userLimit := 0
      topic := "" }
  (ch.setMode 't' true).1

/-- `Channel::addClient`: insert into `users`, drop a pending invite, and
promote the joiner when there are no operators at all. -/
def addClient (ch : Channel) (c : CClient) : Channel :=
  let ch1 := { ch with users := mapInsert c.nick c ch.users }
  let ch2 :=
    if ch1.isInvited c.nick then { ch1 with inviteList := mapErase c.nick ch1.inviteList }
    else ch1
  if ch2.operators.length = 0 then { ch2 with operators := mapInsert c.nick c ch2.operators }
  else ch2

/-- `Channel::addOperator`: promote the stored client found under the nick
(keyed by that client's current nick) and raise the `o` flag. -/
def addOperator (ch : Channel) (nickname : String) : Channel :=
  match mapFind nickname ch.users with
  | some c =>
    let ch1 := { ch with operators := mapInsert c.nick c ch.operators }
    (ch1.setMode 'o' true).1
  | none => ch

/-- The trailing block of `Channel::removeOperator`: when the operators map
is empty while users remain, promote `users.begin()` — the
lexicographically-first user. -/
def opRefill (ch1 : Channel) : Channel :=
  match ch1.operators, ch1.users with
  | [], (k, v) :: _ => { ch1 with operators := mapInsert k v ch1.operators }
  | _, _ => ch1

/-- `Channel::removeOperator`: erase the nick (clearing the `o` flag) when
present, then the refill block. -/
def removeOperator (ch : Channel) (nickname : String) : Channel :=
  opRefill
    (if (mapFind nickname ch.operators).isSome then
      ({ ch with operators := mapErase nickname ch.operators }.setMode 'o' false).1
    else ch)

/-- `Channel::removeClient`: `removeOperator` on the client's nick first,
then erase the nick from `users`. -/
def removeClient (ch : Channel) (c : CClient) : Channel :=
  let ch1 := ch.removeOperator c.nick
  { ch1 with users := mapErase c.nick ch1.users }

/-- `Channel::inviteClient`. -/
def inviteClient (ch : Channel) (c : CClient) : Channel :=
  { ch with inviteList := mapInsert c.nick c ch.inviteList }

/-- `Channel::removeInvite`. -/
def removeInvite (ch : Channel) (nickname : String) : Channel :=
  { ch with inviteList := mapErase nickname ch.inviteList }

/-- `Channel::setKey`: store the key and raise the `k` flag. -/
def setKey (ch : Channel) (password : String) : Channel :=
  ({ ch with key := password }.setMode 'k' true).1

/-- `Channel::removeKey`: clear the key and the `k` flag. -/
def removeKey (ch : Channel) : Channel :=
  ({ ch with key := "" }.setMode 'k' false).1

/-- `Channel::setUserLimit`: only positive limits are stored (with the `l`
flag); otherwise the call just logs and changes nothing. -/
def setUserLimit (ch : Channel) (limit : Int) : Channel :=
  if limit > 0 then ({ ch with userLimit := limit }.setMode 'l' true).1
  else ch

/-- `Channel::removeUserLimit`: limit becomes `-1` and the `l` flag drops. -/
def removeUserLimit (ch : Channel) : Channel :=
  ({ ch with userLimit := -1 }.setMode 'l' false).1

/-- `Channel::setTopic`: store the topic and force the `t` flag on. -/
def setTopic (ch : Channel) (t : String) : Channel :=
  ({ ch with topic := t }.setMode 't' true).1

/-- `Channel::updateNickname`: rekey `old → new` in `users`, `operators`
and `inviteList`, keeping the stored `Client*` values. -/
def updateNickname (ch : Channel) (oldNick newNick : String) : Channel :=
  let ch1 :=
    match mapFind oldNick ch.users with
    | some c => { ch with users := mapInsert newNick c (mapErase oldNick ch.users) }
    | none => ch
  let ch2 :=
    match mapFind oldNick ch1.operators with
    | some c => { ch1 with operators := mapInsert newNick c (mapErase oldNick ch1.operators) }
    | none => ch1
  match mapFind oldNick ch2.inviteList with
  | some c => { ch2 with inviteList := mapInsert newNick c (mapErase oldNick ch2.inviteList) }
  | none => ch2

/-- `Channel::getUsersList`: member nicks in map order, operators prefixed
with `@`, space-separated, `ft_trim`med. -/
def usersList (ch : Channel) : String :=
  ft_trim (String.join (ch.users.map
    (fun p => (if ch.isOperator p.2.nick then "@" else "") ++ p.2.nick ++ " ")))

end Channel

/-! ## Replies and queued output

The numeric-reply format macros (`ERR_*`, `RPL_*`, `MODE_*`) are defined in
the `Includes/` headers, which are not part of the sources; each constructor
below stands for one macro and carries exactly the arguments the call sites
pass to it. -/

inductive Reply where
  | errNeedMoreParams (nick cmd : String)
  | errUserOnChannel (user nick chan : String)
  | errChannelIsFull (nick chan : String)
  | errInviteOnlyChan (nick chan : String)
  | errBadChannelKey (nick chan : String)
  | errNoSuchChannel (nick target : String)
  | errNotOnChannel (nick chan : String)
  | errChanoPrivsNeeded (nick chan : String)
  | errUserNotInChannel (nick target chan : String)
  | errUnknownMode (nick mode : String)
  | errInvalidModeParam (nick chan : String) (mode : Char) (param : String)
  | rplJoin (nick user chan : String)
  | rplChannelModeIs (nick chan modesStr : String)
  | rplChannelModeIsWithKey (nick chan modesStr maskedKey : String)
  | rplNoTopic (nick chan : String)
  | rplTopic (nick chan topic : String)
  | rplChangeTopic (nick user chan topic : String)
  | modeChange (nick user chan modeStr : String)
  | greetJoined (nick user chan : String) (modePart topicPart : Option String) (names : String)
deriving DecidableEq, Repr

/-- Queued output: a single `serverReplies.push_back` on one client, or a
`Channel::broadcastMessage` fan-out (one frame pushed to every member whose
fd is not `-1`, in map order). -/
inductive Event where
  | reply (cid : Nat) (r : Reply)
  | broadcast (cids : List Nat) (r : Reply)
deriving DecidableEq, Repr

/-- The member ids a `Channel::broadcastMessage` call enqueues to. -/
def bmembers (ch : Channel) : List Nat :=
  ch.users.filterMap (fun p => if p.2.fd ≠ -1 then some p.2.cid else none)

/-- The slice of `Server` state the handlers under study read and write:
`_channels`, `_nicknames`, and the enqueued output frames. -/
structure SrvState where
  channels : List (String × Channel)
  nicknames : List String
  events : List Event
deriving DecidableEq, Repr

/-- Push one reply onto the acting client's queue. -/
def pushReply (st : SrvState) (cid : Nat) (r : Reply) : SrvState :=
  { st with events := st.events ++ [Event.reply cid r] }

/-- Channel-name test `name.at(0) == '#' || name.at(0) == '&'`. -/
def startsChan (s : String) : Bool := cpp_at0 s = '#' ∨ cpp_at0 s = '&'

/-! ## JOIN (`Server::joinCommand`, join.cpp) -/

/-- `Server::greetJoinedUser`: JOIN echo, a MODE reply when the joiner is
the only member, the topic when one is set, then NAMES and end-of-names. -/
def greetReply (c : CClient) (ch : Channel) : Reply :=
  Reply.greetJoined c.nick c.user ch.channelName
    (if ch.users.length = 1 then some ch.modes.modesString else none)
    (if ch.topic = "" then none else some ch.topic)
    ch.usersList

/-- The existing-channel arm of the JOIN loop (join.cpp lines 69–117):
admission checks in source order, then broadcast + add + greeting on
success; always followed by `break`. -/
def joinExistingCh (st : SrvState) (c : CClient) (chanName : String) (ch : Channel)
    (keys : List String) : SrvState :=
  if ch.isClientInChannel c.nick then
    pushReply st c.cid (Reply.errUserOnChannel c.user c.nick chanName)
  else if ¬ch.isInvited c.nick ∧ ch.checkMode 'l' ∧
      (ch.users.length : Int) ≥ ch.userLimit then
    pushReply st c.cid (Reply.errChannelIsFull c.nick chanName)
  else if ch.checkMode 'i' ∧ ¬ch.isInvited c.nick then
    pushReply st c.cid (Reply.errInviteOnlyChan c.nick chanName)
  else if ch.checkMode 'k' ∧ ¬(keys.head? = some ch.key) then
    pushReply st c.cid (Reply.errBadChannelKey c.nick chanName)
  else
    let ch1 := ch.removeInvite c.nick
    let bc := Event.broadcast (bmembers ch1) (Reply.rplJoin c.nick c.user chanName)
    let ch2 := ch1.addClient c
    { st with
      channels := mapInsert chanName ch2 st.channels
      events := st.events ++ [bc, Event.reply c.cid (greetReply c ch2)] }

/-- The `for` loop of `Server::joinCommand`: invalid prefixes are skipped,
an existing channel is handled and then the loop `break`s, a non-existent
one is created (creator greeting pushed) and the loop continues.  The key
iterator is only ever advanced inside the existing-channel arm, which is
terminal, so the remaining key list is passed through creation steps
unchanged. -/
def joinLoop (st : SrvState) (c : CClient) : List String → List String → SrvState
  | [], _ => st
  | chanName :: rest, keys =>
    if ¬startsChan chanName then joinLoop st c rest keys
    else
      match mapFind chanName st.channels with
      | some ch => joinExistingCh st c chanName ch keys
      | none =>
        let ch := Channel.mkChannel chanName c
        let st' :=
          { st with
            channels := mapInsert chanName ch st.channels
            events := st.events ++ [Event.reply c.cid (greetReply c ch)] }
        joinLoop st' c rest keys

/-- `Server::joinCommand`: parameter-count gates, comma-splitting of the
channel and key lists, then the join loop. -/
def joinCommand (st : SrvState) (c : CClient) (params : List String) : SrvState :=
  if params.length > 2 then st
  else if params.length < 1 then
    pushReply st c.cid (Reply.errNeedMoreParams c.nick "JOIN")
  else
    let chanList := ft_split (params.headD "") ','
    let keyList := if params.length > 1 then ft_split (params.getD 1 "") ',' else []
    joinLoop st c chanList keyList

/-! ## MODE (`modeCommand.cpp`) -/

/-- Per-channel mutable state the mode handlers thread through: the channel
reference, the positional-argument cursor and the queued output. -/
structure MRes where
  ch : Channel
  paramIndex : Nat
  events : List Event
deriving DecidableEq, Repr

/-- `Server::handleKeyMode` (`+k`/`-k`). -/
def handleKeyMode (c : CClient) (isAdding : Bool) (params : List String) (ms : MRes) :
    MRes × Bool :=
  if isAdding = ms.ch.modes.get 'k' then (ms, false)
  else if isAdding = true ∧ ms.paramIndex < params.length then
    let p := params.getD ms.paramIndex ""
    if isAlphanumeric p then
      let ch' := ms.ch.setKey p
      (⟨ch', ms.paramIndex + 1,
        ms.events ++ [Event.reply c.cid (Reply.rplChannelModeIsWithKey c.nick
          ch'.channelName ch'.modes.modesString (String.mk (List.replicate p.length '*')))]⟩,
       true)
    else
      (⟨ms.ch, ms.paramIndex + 1,
        ms.events ++ [Event.reply c.cid (Reply.errInvalidModeParam c.nick
          ms.ch.channelName 'k' p)]⟩, false)
  else if isAdding then
    (⟨ms.ch, ms.paramIndex,
      ms.events ++ [Event.reply c.cid (Reply.errNeedMoreParams c.nick "MODE +k")]⟩, false)
  else (⟨ms.ch.removeKey, ms.paramIndex, ms.events⟩, true)

/-- `Server::handleLimitMode` (`+l`/`-l`). -/
def handleLimitMode (c : CClient) (isAdding : Bool) (params : List String) (ms : MRes) :
    MRes × Bool :=
  if isAdding = ms.ch.modes.get 'l' then (ms, false)
  else if isAdding = true ∧ ms.paramIndex < params.length then
    let p := params.getD ms.paramIndex ""
    let lim := cppAtoi p
    if lim > 0 then
      let ch' := ms.ch.setUserLimit lim
      (⟨ch', ms.paramIndex + 1,
        ms.events ++ [Event.reply c.cid (Reply.rplChannelModeIsWithKey c.nick
          ch'.channelName ch'.modes.modesString p)]⟩, true)
    else
      (⟨ms.ch, ms.paramIndex + 1,
        ms.events ++ [Event.reply c.cid (Reply.errInvalidModeParam c.nick
          ms.ch.channelName 'l' p)]⟩, false)
  else if isAdding then
    (⟨ms.ch, ms.paramIndex,
      ms.events ++ [Event.reply c.cid (Reply.errNeedMoreParams c.nick "MODE +l")]⟩, false)
  else (⟨ms.ch.removeUserLimit, ms.paramIndex, ms.events⟩, true)

/-- `Server::handleOperatorMode` (`+o`/`-o`): gated on the channel-level
`o` flag, then consumes one positional argument. -/
def handleOperatorMode (c : CClient) (isAdding : Bool) (params : List String) (ms : MRes) :
    MRes × Bool :=
  if isAdding = ms.ch.modes.get 'o' then (ms, false)
  else if ms.paramIndex < params.length then
    let target := params.getD ms.paramIndex ""
    if ¬ms.ch.isClientInChannel target then
      (⟨ms.ch, ms.paramIndex + 1,
        ms.events ++ [Event.reply c.cid (Reply.errUserNotInChannel c.nick target
          ms.ch.channelName)]⟩, false)
    else
      (⟨(if isAdding then ms.ch.addOperator target else ms.ch.removeOperator target),
        ms.paramIndex + 1, ms.events⟩, true)
  else
    (⟨ms.ch, ms.paramIndex,
      ms.events ++ [Event.reply c.cid (Reply.errNeedMoreParams c.nick "MODE o")]⟩, false)

/-- `Server::processSingleChannelMode`: dispatch on the mode letter;
`b` is accepted and ignored, anything else is `ERR_UNKNOWNMODE`. -/
def processSingleChannelMode (c : CClient) (mode : Char) (isAdding : Bool)
    (params : List String) (ms : MRes) : MRes × Bool :=
  if mode = 'i' then
    let (ch', b) := ms.ch.setMode 'i' isAdding
    ({ ms with ch := ch' }, b)
  else if mode = 'k' then handleKeyMode c isAdding params ms
  else if mode = 'l' then handleLimitMode c isAdding params ms
  else if mode = 't' then
    let (ch', b) := ms.ch.setMode 't' isAdding
    ({ ms with ch := ch' }, b)
  else if mode = 'o' then handleOperatorMode c isAdding params ms
  else if mode = 'b' then (ms, false)
  else
    (⟨ms.ch, ms.paramIndex,
      ms.events ++ [Event.reply c.cid (Reply.errUnknownMode c.nick (String.mk [mode]))]⟩,
     false)

/-- The signed letter appended to the aggregate broadcast string. -/
def modeTag (isAdding : Bool) (m : Char) : String :=
  (if isAdding then "+" else "-") ++ String.mk [m]

/-- The character loop of `Server::processChannelModes`: `+`/`-` set the
direction, every other letter runs one handler and, when it reports a
change, appends its signed letter to the aggregate string. -/
def modeLoop (c : CClient) (params : List String) :
    List Char → Bool → MRes → String → MRes × String
  | [], _, ms, acc => (ms, acc)
  | m :: rest, isAdding, ms, acc =>
    if m = '+' ∨ m = '-' then modeLoop c params rest (m = '+') ms acc
    else
      let r := processSingleChannelMode c m isAdding params ms
      modeLoop c params rest isAdding r.1 (if r.2 then acc ++ modeTag isAdding m else acc)

/-- `Server::processChannelModes`: run the mode string starting at
positional argument 2; broadcast one aggregated MODE frame when the
aggregate string is non-empty. -/
def processChannelModes (c : CClient) (params : List String) (ch : Channel)
    (evs : List Event) : Channel × List Event :=
  let r := modeLoop c params (params.getD 1 "").data true ⟨ch, 2, evs⟩ ""
  if r.2 = "" then (r.1.ch, r.1.events)
  else
    (r.1.ch, r.1.events ++
      [Event.broadcast (bmembers r.1.ch)
        (Reply.modeChange c.nick c.user r.1.ch.channelName r.2)])

/-- `Server::handleChannelMode`: existence check, bare-MODE query reply,
operator gate, then the mode processor (mutating the mapped channel). -/
def handleChannelMode (st : SrvState) (c : CClient) (channelName : String)
    (params : List String) : SrvState :=
  match mapFind channelName st.channels with
  | none => pushReply st c.cid (Reply.errNoSuchChannel c.nick channelName)
  | some ch =>
    if params.length = 1 then
      pushReply st c.cid (Reply.rplChannelModeIs c.nick channelName ch.modes.modesString)
    else if ¬ch.isOperator c.nick then
      pushReply st c.cid (Reply.errChanoPrivsNeeded c.nick channelName)
    else
      let r := processChannelModes c params ch st.events
      { st with channels := mapInsert channelName r.1 st.channels, events := r.2 }

/-- The effective MODE parameter vector: the parsed params with the
space-split trailing spliced onto the end. -/
def modeParams (pparams : List String) (trailing : String) : List String :=
  pparams ++ (if trailing ≠ "" then ft_split trailing ' ' else [])

/-- `Server::handelModeCommand`: splice the space-split trailing onto the
params, then route on the target's first character; a non-channel target
that names a known user falls through with no reply and no state change. -/
def handelModeCommand (st : SrvState) (c : CClient) (pparams : List String)
    (trailing : String) : SrvState :=
  let params := modeParams pparams trailing
  if params.length < 1 then pushReply st c.cid (Reply.errNeedMoreParams c.nick "MODE")
  else
    let target := params.headD ""
    if cpp_at0 target = '#' ∨ cpp_at0 target = '&' then
      handleChannelMode st c target params
    else if ¬(target ∈ st.nicknames) then
      pushReply st c.cid (Reply.errNoSuchChannel c.nick target)
    else st

/-! ## TOPIC (`Server::topicCommand`, topicCommand.cpp) -/

/-- `Server::topicCommand`: gates in source order, query when there is no
trailing, else the `+t`/operator check and the topic change broadcast. -/
def topicCommand (st : SrvState) (c : CClient) (params : List String)
    (trailing : String) : SrvState :=
  if params = [] then pushReply st c.cid (Reply.errNeedMoreParams c.nick "TOPIC")
  else
    let channelName := params.headD ""
    if ¬(cpp_at0 channelName = '#' ∨ cpp_at0 channelName = '&') then st
    else
      match mapFind channelName st.channels with
      | none => pushReply st c.cid (Reply.errNoSuchChannel c.nick channelName)
      | some ch =>
        if ¬ch.isClientInChannel c.nick then
          pushReply st c.cid (Reply.errNotOnChannel c.nick channelName)
        else if trailing = "" then
          if ch.topic = "" then pushReply st c.cid (Reply.rplNoTopic c.nick channelName)
          else pushReply st c.cid (Reply.rplTopic c.nick channelName ch.topic)
        else if ch.checkMode 't' ∧ ¬ch.isOperator c.nick then
          pushReply st c.cid (Reply.errChanoPrivsNeeded c.nick channelName)
        else
          let ch' := ch.setTopic trailing
          { st with
            channels := mapInsert channelName ch' st.channels
            events := st.events ++
              [Event.broadcast (bmembers ch')
                (Reply.rplChangeTopic c.nick c.user channelName trailing)] }

/-! ## Message parser (`ParseMessage.cpp`) -/

/-- The parsed-message record `{_cmd, _params, _trailing, _notValidParam,
_errorMsg}`. -/
structure PMsg where
  cmd : String
  params : List String
  trailing : String
  notValidParam : Bool
  errorMsg : String
deriving DecidableEq, Repr

/-- `ParseMessage::isValid`: no `'\n'`, `'\r'`, `'\t'` or `':'` anywhere. -/
def isValidParam (p : String) : Bool :=
  p.data.all (fun c => ¬(c = '\n' ∨ c = '\r' ∨ c = '\t' ∨ c = ':'))

/-- `message.substr(message.find(token) + 1)`: the suffix of the original
line one past the **first occurrence** of the token's text (on a failed
find, `npos + 1` wraps to `0`, yielding the whole line). -/
def afterTok (msg tok : String) : String :=
  match strFind tok.data msg.data with
  | some p => String.mk (msg.data.drop (p + 1))
  | none => String.mk (msg.data.drop 0)

/-- The token loop of the `ParseMessage` constructor. -/
def parseLoop (msg : String) : List String → PMsg → Bool → Bool → PMsg
  | [], acc, _, _ => acc
  | tok :: rest, acc, tagFlag, tagCmd =>
    if tagFlag then
      if cpp_at0 tok = ':' then
        parseLoop msg rest { acc with cmd := String.mk (tok.data.drop 1) } false false
      else parseLoop msg rest acc true tagCmd
    else if tagCmd then
      parseLoop msg rest { acc with cmd := tok } tagFlag false
    else if cpp_at0 tok = ':' then
      { acc with trailing := ft_trim (afterTok msg tok) }
    else if isValidParam tok then
      parseLoop msg rest { acc with params := acc.params ++ [tok] } tagFlag tagCmd
    else
      { acc with notValidParam := true
                 errorMsg := "Invalid character in parameter: " ++ tok }

/-- The `ParseMessage(message)` constructor: empty input yields the empty
record; otherwise the whitespace-token loop over the trimmed line, with the
tag flag set when the trimmed line starts with `'@'`. -/
def parseMessage (message : String) : PMsg :=
  if message = "" then ⟨"", [], "", false, ""⟩
  else
    parseLoop message (tokenize (ft_trim message)) ⟨"", [], "", false, ""⟩
      (cpp_at0 (ft_trim message) = '@') true

/-! ## Concrete fixtures used by counterexamples and witnesses -/

/-- Fixture client. -/
def aliceC : CClient := ⟨1, 4, "alice", "au"⟩

/-- Fixture client. -/
def bobC : CClient := ⟨2, 5, "bob", "bu"⟩

/-- Fixture client. -/
def carolC : CClient := ⟨3, 6, "carol", "cu"⟩

/-- Fixture client. -/
def daveC : CClient := ⟨4, 7, "dave", "du"⟩

/-- Channel `#r` with users `{alice, bob}` and sole operator `alice`
(for example: alice created `#r`, bob joined). -/
def chR : Channel :=
  ⟨"#r", [("alice", aliceC), ("bob", bobC)], [("alice", aliceC)], [],
   ⟨false, true, false, false, false⟩, "", 0, ""⟩

/-- Channel `#c` with users `{alice, bob, carol}`, operators `{alice, bob}`
and the `o` flag raised (for example by an earlier `MODE #c +o bob`). -/
def chO : Channel :=
  ⟨"#c", [("alice", aliceC), ("bob", bobC), ("carol", carolC)],
   [("alice", aliceC), ("bob", bobC)], [],
   ⟨false, true, false, true, false⟩, "", 0, ""⟩

/-- Channel `#r2` like `chR` but with the `o` flag raised. -/
def chR2 : Channel :=
  ⟨"#r2", [("alice", aliceC), ("bob", bobC)], [("alice", aliceC)], [],
   ⟨false, true, false, true, false⟩, "", 0, ""⟩

/-- Channel `#a` created by bob. -/
def chA : Channel := Channel.mkChannel "#a" bobC

/-- Server state holding only `#a`. -/
def stA : SrvState := ⟨[("#a", chA)], ["alice", "bob"], []⟩

/-- Channel `#k` with a key `"secret"` (mode `k`) whose member is bob and
whose invite list holds dave. -/
def chK : Channel :=
  ⟨"#k", [("bob", bobC)], [("bob", bobC)], [("dave", daveC)],
   ⟨false, true, true, false, false⟩, "secret", 0, ""⟩

/-- Server state holding only `#k`. -/
def stK : SrvState := ⟨[("#k", chK)], ["bob", "dave"], []⟩

/-- Server state where alice created (and is the only member of) `#a`. -/
def stMem : SrvState := ⟨[("#a", Channel.mkChannel "#a" aliceC)], ["alice"], []⟩

/-! ## Map lemmas -/

@[simp] theorem mapFind_nil (k : String) : mapFind k ([] : List (String × α)) = none := rfl

@[simp] theorem mapFind_cons (k k' : String) (v : α) (rest : List (String × α)) :
    mapFind k ((k', v) :: rest) = if k = k' then some v else mapFind k rest := rfl

@[simp] theorem mapFind_insert_self (k : String) (v : α) (m : List (String × α)) :
    mapFind k (mapInsert k v m) = some v := by
  induction m with
  | nil => simp [mapInsert, mapFind]
  | cons p rest ih =>
    obtain ⟨k', v'⟩ := p
    by_cases h1 : strLt k k' = true
    · simp [mapInsert, h1, mapFind]
    · by_cases h2 : k = k'
      · subst h2
        simp [mapInsert, h1, mapFind]
      · simp [mapInsert, h1, h2, mapFind, ih]

theorem mapFind_insert_ne (k k' : String) (hk : k ≠ k') (v : α) (m : List (String × α)) :
    mapFind k (mapInsert k' v m) = mapFind k m := by
  induction m with
  | nil => simp [mapInsert, mapFind, hk]
  | cons p rest ih =>
    obtain ⟨k0, v0⟩ := p
    by_cases h1 : strLt k' k0 = true
    · simp [mapInsert, h1, mapFind, hk]
    · by_cases h2 : k' = k0
      · subst h2
        simp [mapInsert, h1, mapFind, hk]
      · simp [mapInsert, h1, h2, mapFind]
        by_cases h3 : k = k0
        · simp [h3]
        · simp [h3, ih]

@[simp] theorem mapFind_erase_self (k : String) (m : List (String × α)) :
    mapFind k (mapErase k m) = none := by
  induction m with
  | nil => rfl
  | cons p rest ih =>
    obtain ⟨k0, v0⟩ := p
    by_cases h : k0 = k
    · simpa [mapErase, h] using ih
    · simp [mapErase, h, mapFind, Ne.symm h] at ih ⊢
      exact ih

theorem mapFind_erase_ne (k k' : String) (hk : k ≠ k') (m : List (String × α)) :
    mapFind k (mapErase k' m) = mapFind k m := by
  induction m with
  | nil => rfl
  | cons p rest ih =>
    obtain ⟨k0, v0⟩ := p
    by_cases h : k0 = k'
    · subst h
      simp [mapErase, mapFind, hk] at ih ⊢
      exact ih
    · simp [mapErase, h, mapFind] at ih ⊢
      by_cases h2 : k = k0
      · simp [h2]
      · simp [h2, ih]

/-! ## Claims -/

/-- C1.  The claim states that after every channel-mutating operation every
operator nick is also a user nick, and that `removeClient(c)` removes `c`
from both `operators` and `users`, promoting a *remaining* user if the
operators map would become empty.  The code is wrong: `removeClient` runs
`removeOperator` *before* erasing the client from `users`, so when the
departing client is the sole operator and the lexicographically-first user,
`removeOperator`'s refill re-promotes the departing client, and after the
`users` erase the channel has an operator (`alice`) who is not a user —
`operators ⊆ users` is violated. -/
theorem C1_removeClient_operator_not_user :
    (chR.removeClient aliceC).operators = [("alice", aliceC)] ∧
    (chR.removeClient aliceC).users = [("bob", bobC)] ∧
    (chR.removeClient aliceC).isOperator "alice" = true ∧
    (chR.removeClient aliceC).isClientInChannel "alice" = false := by decide

/-- C2 counterexample.  The claim states every listed channel is processed
in order.  Here `JOIN #a,#b` (with `#a` existing and `#b` not) processes
`#a` and then `break`s, so `#b` is never processed — were it processed it
would have been created. -/
theorem C2_counterexample :
    mapFind "#b" (joinCommand stA aliceC ["#a,#b"]).channels = none ∧
    (mapFind "#a" stA.channels).isSome = true ∧
    mapFind "#b" stA.channels = none := by decide

/-- C4 counterexample.  Two concrete refutations of the claim that a `+o`
with a nick in the channel always promotes and a `-o` always demotes:
(1) on `chO` the `o` flag is already `true`, so `MODE +o carol` is rejected
by the flag gate — carol (a member) is not promoted and no positional
argument is consumed; (2) on `chR2`, `MODE -o alice` erases the sole
operator but the refill immediately re-promotes `alice` (still the
lexicographically-first user), so the nick is *not* removed from the
operators map. -/
theorem C4_counterexample :
    (handleOperatorMode aliceC true ["#c", "+o", "carol"] ⟨chO, 2, []⟩ =
      (⟨chO, 2, []⟩, false) ∧
     chO.isClientInChannel "carol" = true ∧ chO.isOperator "carol" = false) ∧
    ((handleOperatorMode aliceC false ["#r2", "-o", "alice"] ⟨chR2, 2, []⟩).1.ch.operators =
      [("alice", aliceC)] ∧
     chR2.isOperator "alice" = true) := by decide

/-- C5 counterexample.  The claim states the trailing is the substring of
the original line after the reached token's leading `':'`.  On the line
`"A:x b :x y"` the reached token is `":x"` and the claim's value is
`"x y"`, but the code takes the suffix after the *first occurrence* of the
token's text `":x"` — which is inside the command `"A:x"` — yielding
`"x b :x y"`. -/
theorem C5_counterexample :
    (parseMessage "A:x b :x y").trailing = "x b :x y" ∧
    ("x b :x y" : String) ≠ "x y" := by decide

/-- C6 counterexample.  The claim states that a toggle that would not
change the channel's state does not appear in the broadcast and that with
no effective toggle no MODE broadcast is sent.  On `chO`, `MODE #c -o
carol` (carol is a member but not an operator, and other operators remain)
changes nothing — the resulting channel equals `chO` — yet the handler
reports a change and exactly one MODE broadcast carrying `-o` is sent. -/
theorem C6_counterexample :
    (processChannelModes aliceC ["#c", "-o", "carol"] chO []).1 = chO ∧
    (processChannelModes aliceC ["#c", "-o", "carol"] chO []).2 =
      [Event.broadcast [1, 2, 3] (Reply.modeChange "alice" "au" "#c" "-o")] := by decide

/-- C3.  On JOIN of an existing channel the admission checks run in source
order and the first failing one pushes exactly its error reply, leaving the
whole server state otherwise unchanged (in particular the client is not
added): already-member → `ERR_USERONCHANNEL`; `+l` with the user count at
or above the limit → `ERR_CHANNELISFULL` unless invited; `+i` →
`ERR_INVITEONLYCHAN` unless invited; `+k` with a missing or wrong key →
`ERR_BADCHANNELKEY` — the key branch does not look at the invite list, so
being invited does not bypass it. -/
theorem C3_join_admission_order (st : SrvState) (c : CClient) (chanName : String)
    (ch : Channel) (keys : List String) :
    (ch.isClientInChannel c.nick = true →
      joinExistingCh st c chanName ch keys =
        pushReply st c.cid (Reply.errUserOnChannel c.user c.nick chanName)) ∧
    (ch.isClientInChannel c.nick = false → ch.isInvited c.nick = false →
      ch.checkMode 'l' = true → (ch.users.length : Int) ≥ ch.userLimit →
      joinExistingCh st c chanName ch keys =
        pushReply st c.cid (Reply.errChannelIsFull c.nick chanName)) ∧
    (ch.isClientInChannel c.nick = false →
      ¬(¬ch.isInvited c.nick = true ∧ ch.checkMode 'l' = true ∧
          (ch.users.length : Int) ≥ ch.userLimit) →
      ch.checkMode 'i' = true → ch.isInvited c.nick = false →
      joinExistingCh st c chanName ch keys =
        pushReply st c.cid (Reply.errInviteOnlyChan c.nick chanName)) ∧
    (ch.isClientInChannel c.nick = false →
      ¬(¬ch.isInvited c.nick = true ∧ ch.checkMode 'l' = true ∧
          (ch.users.length : Int) ≥ ch.userLimit) →
      ¬(ch.checkMode 'i' = true ∧ ¬ch.isInvited c.nick = true) →
      ch.checkMode 'k' = true → keys.head? ≠ some ch.key →
      joinExistingCh st c chanName ch keys =
        pushReply st c.cid (Reply.errBadChannelKey c.nick chanName)) := by
  refine ⟨fun h1 => ?_, fun h1 h2 h3 h4 => ?_, fun h1 h2 h3 h4 => ?_,
    fun h1 h2 h3 h4 h5 => ?_⟩
  · simp [joinExistingCh, h1]
  · simp [joinExistingCh, h1, h2, h3, h4]
  · simp only [joinExistingCh]
    rw [if_neg (by simp [h1]), if_neg h2, if_pos (by simp [h3, h4])]
  · simp only [joinExistingCh]
    rw [if_neg (by simp [h1]), if_neg h2, if_neg h3, if_pos (by simp [h4, h5])]

/-- C3 witness: dave is invited to `#k` (mode `k`, key `"secret"`) but
supplies the wrong key — the invite does not bypass the key check. -/
theorem C3_witness :
    joinExistingCh stK daveC "#k" chK ["wrong"] =
      pushReply stK daveC.cid (Reply.errBadChannelKey "dave" "#k") :=
  (C3_join_admission_order stK daveC "#k" chK ["wrong"]).2.2.2
    (by decide) (by decide) (by decide) (by decide) (by decide)

/-- Splitting a list that contains no separator yields the accumulated word
followed by the whole list, as a single token (empty input gives none). -/
theorem splitBy_no_sep (p : Char → Bool) (cs : List Char) (w : List Char)
    (h : ∀ c ∈ cs, p c = false) :
    splitBy p cs w =
      if (w.reverse ++ cs) = [] then [] else [String.mk (w.reverse ++ cs)] := by
  induction cs generalizing w with
  | nil => simp [splitBy]
  | cons c rest ih =>
    have hc : p c = false := h c (by simp)
    have h' : ∀ x ∈ rest, p x = false := fun x hx => h x (by simp [hx])
    rw [splitBy, if_neg (by simp [hc])]
    rw [ih _ h']
    simp

/-- `ft_split` of a non-empty string free of the delimiter is the singleton
list holding the string itself. -/
theorem ft_split_no_sep (s : String) (d : Char) (hne : s ≠ "")
    (hd : ∀ x ∈ s.data, x ≠ d) :
    ft_split s d = [s] := by
  have hdata : s.data ≠ [] := by
    intro h
    exact hne (by cases s; simp_all)
  unfold ft_split
  rw [splitBy_no_sep]
  · simp only [List.reverse_nil, List.nil_append]
    rw [if_neg hdata]
  · intro x hx
    simp [hd x hx]

/-- C7.  `JOIN <chan>` for a channel the client is already a member of
pushes exactly `ERR_USERONCHANNEL` to the client and leaves the rest of the
state — the channel map (hence users, operators, invite list, modes,
topic, key and limit of every channel) and the nickname registry —
unchanged. -/
theorem C7_join_member_state_unchanged (st : SrvState) (c : CClient)
    (chanName : String) (ch : Channel)
    (hfound : mapFind chanName st.channels = some ch)
    (hmem : ch.isClientInChannel c.nick = true)
    (hpre : startsChan chanName = true)
    (hnc : ∀ x ∈ chanName.data, x ≠ ',')
    (hne : chanName ≠ "") :
    joinCommand st c [chanName] =
      { st with events := st.events ++
          [Event.reply c.cid (Reply.errUserOnChannel c.user c.nick chanName)] } := by
  have h0 : joinCommand st c [chanName] = joinLoop st c (ft_split chanName ',') [] := by
    norm_num [joinCommand]
  rw [h0, ft_split_no_sep chanName ',' hne hnc]
  simp [joinLoop, hpre, hfound, joinExistingCh, hmem, pushReply]

/-- C7 witness: alice re-JOINs `#a`, which she created. -/
theorem C7_witness :
    joinCommand stMem aliceC ["#a"] =
      { stMem with events :=
          [Event.reply 1 (Reply.errUserOnChannel "au" "alice" "#a")] } :=
  C7_join_member_state_unchanged stMem aliceC "#a"
    (Channel.mkChannel "#a" aliceC) (by decide) (by decide) (by decide)
    (by decide) (by decide)

/-- `updateNickname` is the rekeying step applied to each of the three
membership maps, everything else unchanged. -/
theorem updateNickname_fields (ch : Channel) (o n : String) :
    (ch.updateNickname o n).users = rekeyMap o n ch.users ∧
    (ch.updateNickname o n).operators = rekeyMap o n ch.operators ∧
    (ch.updateNickname o n).inviteList = rekeyMap o n ch.inviteList := by
  unfold Channel.updateNickname rekeyMap
  rcases h1 : mapFind o ch.users with _ | c1 <;>
    rcases h2 : mapFind o ch.operators with _ | c2 <;>
    rcases h3 : mapFind o ch.inviteList with _ | c3 <;>
    simp [h1, h2, h3]

/-- What rekeying does to lookups when the new key is fresh. -/
theorem rekeyMap_spec (o n : String) (hne : o ≠ n) (m : List (String × α))
    (hnew : mapFind n m = none) :
    mapFind o (rekeyMap o n m) = none ∧
    mapFind n (rekeyMap o n m) = mapFind o m ∧
    ∀ q, q ≠ o → q ≠ n → mapFind q (rekeyMap o n m) = mapFind q m := by
  unfold rekeyMap
  rcases h : mapFind o m with _ | c
  · exact ⟨h, by rw [hnew], fun q _ _ => rfl⟩
  · refine ⟨?_, ?_, ?_⟩
    · rw [mapFind_insert_ne o n hne, mapFind_erase_self]
    · rw [mapFind_insert_self]
    · intro q hqo hqn
      rw [mapFind_insert_ne q n hqn, mapFind_erase_ne q o hqo]

/-- C8.  After `updateNickname(old, new)` — as invoked by NICK, which
guarantees the new nick is distinct and unused — the old nick is absent
from the channel's `users`, `operators` and `inviteList`, the new nick maps
in each of the three exactly to what the old nick mapped to (same client
reference, or absent where the old nick was absent), and every other nick's
entries are untouched. -/
theorem C8_updateNickname_rekeys (ch : Channel) (o n : String)
    (hne : o ≠ n)
    (hu : mapFind n ch.users = none)
    (ho : mapFind n ch.operators = none)
    (hi : mapFind n ch.inviteList = none) :
    mapFind o (ch.updateNickname o n).users = none ∧
    mapFind o (ch.updateNickname o n).operators = none ∧
    mapFind o (ch.updateNickname o n).inviteList = none ∧
    mapFind n (ch.updateNickname o n).users = mapFind o ch.users ∧
    mapFind n (ch.updateNickname o n).operators = mapFind o ch.operators ∧
    mapFind n (ch.updateNickname o n).inviteList = mapFind o ch.inviteList ∧
    ∀ q, q ≠ o → q ≠ n →
      mapFind q (ch.updateNickname o n).users = mapFind q ch.users ∧
      mapFind q (ch.updateNickname o n).operators = mapFind q ch.operators ∧
      mapFind q (ch.updateNickname o n).inviteList = mapFind q ch.inviteList := by
  obtain ⟨fu, fo, fi⟩ := updateNickname_fields ch o n
  obtain ⟨u1, u2, u3⟩ := rekeyMap_spec o n hne ch.users hu
  obtain ⟨o1, o2, o3⟩ := rekeyMap_spec o n hne ch.operators ho
  obtain ⟨i1, i2, i3⟩ := rekeyMap_spec o n hne ch.inviteList hi
  rw [fu, fo, fi]
  exact ⟨u1, o1, i1, u2, o2, i2,
    fun q hqo hqn => ⟨u3 q hqo hqn, o3 q hqo hqn, i3 q hqo hqn⟩⟩

/-- C8 witness: on `chR` (alice in all of users/operators, bob a plain
user), renaming alice to zed moves her entries and leaves bob alone. -/
theorem C8_witness :
    mapFind "alice" (chR.updateNickname "alice" "zed").users = none ∧
    mapFind "zed" (chR.updateNickname "alice" "zed").operators =
      mapFind "alice" chR.operators ∧
    mapFind "bob" (chR.updateNickname "alice" "zed").users = mapFind "bob" chR.users :=
  let h := C8_updateNickname_rekeys chR "alice" "zed" (by decide) (by decide)
    (by decide) (by decide)
  ⟨h.1, h.2.2.2.2.1, (h.2.2.2.2.2.2 "bob" (by decide) (by decide)).1⟩

/-- C9.  A channel freshly created by JOIN starts with mode `t` set and
`i`, `k`, `o`, `l` clear (the constructor raises `t` via
`setMode('t', true)` although no topic exists), so the very first
TOPIC-with-text from a member who is not an operator is already rejected
with `ERR_CHANOPRIVSNEEDED`. -/
theorem C9_fresh_channel_topic_locked (name : String) (creator other : CClient)
    (st : SrvState) (txt : String)
    (hne : other.nick ≠ creator.nick)
    (hpre : cpp_at0 name = '#' ∨ cpp_at0 name = '&')
    (hfound : mapFind name st.channels =
      some ((Channel.mkChannel name creator).addClient other))
    (htxt : txt ≠ "") :
    (Channel.mkChannel name creator).modes = ⟨false, true, false, false, false⟩ ∧
    topicCommand st other [name] txt =
      pushReply st other.cid (Reply.errChanoPrivsNeeded other.nick name) := by
  constructor
  · rfl
  · have hmem : ((Channel.mkChannel name creator).addClient other).isClientInChannel
        other.nick = true := by
      simp [Channel.isClientInChannel, Channel.addClient, Channel.mkChannel,
        Channel.isInvited, Channel.setMode, Modes.get, Modes.set]
    have hop : ((Channel.mkChannel name creator).addClient other).isOperator
        other.nick = false := by
      simp [Channel.isOperator, Channel.addClient, Channel.mkChannel,
        Channel.isInvited, Channel.setMode, Modes.get, Modes.set, mapFind, hne]
    have hmode : ((Channel.mkChannel name creator).addClient other).checkMode 't' = true := by
      simp [Channel.checkMode, Channel.addClient, Channel.mkChannel,
        Channel.isInvited, Channel.setMode, Modes.get, Modes.set]
    unfold topicCommand
    rw [if_neg (by simp)]
    simp only [List.headD, List.getD, List.head?, Option.getD]
    rw [if_neg (not_not_intro hpre), hfound]
    simp [hmem, hop, hmode, htxt]

/-- C9 witness: bob (not an operator) tries to set the first topic of the
fresh channel `#t` created by alice. -/
theorem C9_witness :
    topicCommand ⟨[("#t", (Channel.mkChannel "#t" aliceC).addClient bobC)],
        ["alice", "bob"], []⟩ bobC ["#t"] "hi" =
      pushReply ⟨[("#t", (Channel.mkChannel "#t" aliceC).addClient bobC)],
        ["alice", "bob"], []⟩ bobC.cid (Reply.errChanoPrivsNeeded "bob" "#t") :=
  (C9_fresh_channel_topic_locked "#t" aliceC bobC _ "hi" (by decide) (by decide)
    (by decide) (by decide)).2

/-- C10.  A MODE command whose target does not start with `#` or `&` but
names a nick present in the nickname index falls through both branches of
`handelModeCommand`: no reply is enqueued and the state is returned
unchanged. -/
theorem C10_mode_known_user_noop (st : SrvState) (c : CClient)
    (pparams : List String) (trailing : String)
    (hlen : modeParams pparams trailing ≠ [])
    (hpre : ¬(cpp_at0 ((modeParams pparams trailing).headD "") = '#' ∨
              cpp_at0 ((modeParams pparams trailing).headD "") = '&'))
    (hnick : (modeParams pparams trailing).headD "" ∈ st.nicknames) :
    handelModeCommand st c pparams trailing = st := by
  have hlen' : ¬(modeParams pparams trailing).length < 1 := by
    simpa [Nat.lt_one_iff, List.length_eq_zero] using hlen
  simp only [handelModeCommand]
  rw [if_neg hlen', if_neg hpre, if_neg (not_not_intro hnick)]

/-- C10 witness: `MODE bob` from alice while `bob` is a known nick. -/
theorem C10_witness :
    handelModeCommand stA aliceC ["bob"] "" = stA :=
  C10_mode_known_user_noop stA aliceC ["bob"] "" (by decide) (by decide) (by decide)

/-- Erasing a key that is not in the map changes nothing. -/
theorem mapErase_not_found (k : String) (m : List (String × α))
    (h : mapFind k m = none) : mapErase k m = m := by
  induction m with
  | nil => rfl
  | cons p rest ih =>
    obtain ⟨k0, v0⟩ := p
    by_cases hk : k = k0
    · simp [mapFind, hk] at h
    · simp [mapFind, hk] at h
      simp [mapErase, Ne.symm hk] at ih ⊢
      exact ih h

/-- `setMode` only ever changes the `modes` field. -/
theorem setMode_users (ch : Channel) (c : Char) (b : Bool) :
    ((ch.setMode c b).1).users = ch.users := by
  unfold Channel.setMode
  split <;> rfl

/-- `setMode` only ever changes the `modes` field. -/
theorem setMode_operators (ch : Channel) (c : Char) (b : Bool) :
    ((ch.setMode c b).1).operators = ch.operators := by
  unfold Channel.setMode
  split <;> rfl

/-- The refill block never touches the `users` map. -/
theorem opRefill_users (ch1 : Channel) : ch1.opRefill.users = ch1.users := by
  unfold Channel.opRefill
  rcases h1 : ch1.operators with _ | ⟨p, ops⟩ <;>
    rcases h2 : ch1.users with _ | ⟨⟨k, v⟩, us⟩ <;> simp [h1, h2]

/-- The operators map that the refill block produces. -/
theorem opRefill_operators (ch1 : Channel) :
    ch1.opRefill.operators =
      match ch1.operators, ch1.users with
      | [], (k, v) :: _ => [(k, v)]
      | e, _ => e := by
  unfold Channel.opRefill
  rcases h1 : ch1.operators with _ | ⟨p, ops⟩ <;>
    rcases h2 : ch1.users with _ | ⟨⟨k, v⟩, us⟩ <;> simp [h1, h2, mapInsert]

/-- The channel entering the refill block inside `removeOperator`: its
operators are the erase result and its users are untouched. -/
theorem removeOperator_pre (ch : Channel) (t : String) :
    ((if (mapFind t ch.operators).isSome then
        ({ ch with operators := mapErase t ch.operators }.setMode 'o' false).1
      else ch)).operators = mapErase t ch.operators ∧
    ((if (mapFind t ch.operators).isSome then
        ({ ch with operators := mapErase t ch.operators }.setMode 'o' false).1
      else ch)).users = ch.users := by
  by_cases h : (mapFind t ch.operators).isSome
  · rw [if_pos h]
    exact ⟨setMode_operators _ 'o' false, setMode_users _ 'o' false⟩
  · have hnone : mapFind t ch.operators = none := by
      rcases hf : mapFind t ch.operators with _ | v
      · rfl
      · simp [hf] at h
    rw [if_neg h]
    refine ⟨?_, rfl⟩
    rw [mapErase_not_found t ch.operators hnone]

/-- `removeOperator` never touches the `users` map. -/
theorem removeOperator_users (ch : Channel) (t : String) :
    (ch.removeOperator t).users = ch.users := by
  unfold Channel.removeOperator
  rw [opRefill_users]
  exact (removeOperator_pre ch t).2

/-- The operators map after `removeOperator`: the erase result, refilled
with the first user when it came out empty while users remain. -/
theorem removeOperator_operators (ch : Channel) (t : String) :
    (ch.removeOperator t).operators =
      match mapErase t ch.operators, ch.users with
      | [], (k, v) :: _ => [(k, v)]
      | e, _ => e := by
  unfold Channel.removeOperator
  rw [opRefill_operators, (removeOperator_pre ch t).1, (removeOperator_pre ch t).2]

/-- The operators map after `addOperator` of a present nick. -/
theorem addOperator_operators (ch : Channel) (t : String) (tc : CClient)
    (hin : mapFind t ch.users = some tc) :
    (ch.addOperator t).operators = mapInsert tc.nick tc ch.operators := by
  unfold Channel.addOperator
  simp only [hin]
  rw [setMode_operators]

/-- C4, amended.  `handleOperatorMode` first consults the channel-level `o`
flag and is a silent no-op (no argument consumed) when the flag already
equals the requested direction; when the flag differs and the next
positional argument names a nick in the channel's users map, it consumes
that argument and reports a change: `+o` inserts the stored client into
`operators`, and `-o` erases the nick from `operators` **except** that if
the erase leaves no operator while users remain, the lexicographically
first user (who may be the very nick being demoted) is promoted back. -/
theorem C4_operator_mode_flag_gated (c tc : CClient) (params : List String)
    (ms : MRes) (isAdding : Bool) (target : String)
    (hflag : isAdding ≠ ms.ch.modes.get 'o')
    (hidx : ms.paramIndex < params.length)
    (htgt : params.getD ms.paramIndex "" = target)
    (hin : mapFind target ms.ch.users = some tc) :
    (handleOperatorMode c isAdding params ms).2 = true ∧
    (handleOperatorMode c isAdding params ms).1.paramIndex = ms.paramIndex + 1 ∧
    (handleOperatorMode c isAdding params ms).1.events = ms.events ∧
    (isAdding = true →
      mapFind tc.nick (handleOperatorMode c isAdding params ms).1.ch.operators = some tc) ∧
    (isAdding = false → mapErase target ms.ch.operators ≠ [] →
      mapFind target (handleOperatorMode c isAdding params ms).1.ch.operators = none) ∧
    (isAdding = false → mapErase target ms.ch.operators = [] → ms.ch.users ≠ [] →
      (handleOperatorMode c isAdding params ms).1.ch.operators =
        [ms.ch.users.headD ("", tc)]) := by
  have hmem : ms.ch.isClientInChannel target = true := by
    simp [Channel.isClientInChannel, hin]
  have hrun : handleOperatorMode c isAdding params ms =
      (⟨(if isAdding then ms.ch.addOperator target else ms.ch.removeOperator target),
        ms.paramIndex + 1, ms.events⟩, true) := by
    unfold handleOperatorMode
    rw [if_neg hflag, if_pos hidx, htgt, if_neg (by simp [hmem])]
  rw [hrun]
  refine ⟨rfl, rfl, rfl, fun ha => ?_, fun ha hne => ?_, fun ha he hu => ?_⟩
  · subst ha
    simp only [if_pos]
    rw [addOperator_operators ms.ch target tc hin, mapFind_insert_self]
  · subst ha
    rw [show (if false = true then ms.ch.addOperator target
          else ms.ch.removeOperator target) = ms.ch.removeOperator target by simp]
    rw [removeOperator_operators]
    rcases hrc : mapErase target ms.ch.operators with _ | ⟨p, e⟩
    · exact absurd hrc hne
    · have hmr : (match ((p :: e) : List (String × CClient)), ms.ch.users with
          | [], (k, v) :: _ => [(k, v)]
          | e, _ => e) = p :: e := rfl
      rw [hmr, ← hrc, mapFind_erase_self]
  · subst ha
    rw [show (if false = true then ms.ch.addOperator target
          else ms.ch.removeOperator target) = ms.ch.removeOperator target by simp]
    rw [removeOperator_operators, he]
    rcases hus : ms.ch.users with _ | ⟨⟨k, v⟩, us⟩
    · exact absurd hus hu
    · rfl

/-- C4 witness: with the `o` flag clear on `chR`, `MODE +o bob` consumes
the argument and makes bob an operator. -/
theorem C4_witness :
    (handleOperatorMode aliceC true ["#r", "+o", "bob"] ⟨chR, 2, []⟩).2 = true ∧
    mapFind "bob"
      (handleOperatorMode aliceC true ["#r", "+o", "bob"] ⟨chR, 2, []⟩).1.ch.operators =
      some bobC :=
  have h := C4_operator_mode_flag_gated aliceC bobC ["#r", "+o", "bob"] ⟨chR, 2, []⟩
    true "bob" (by decide) (by decide) (by decide) (by decide)
  ⟨h.1, h.2.2.2.1 rfl⟩

/-- Every branch of `processSingleChannelMode` only appends per-client
replies — never a broadcast — to the queued output. -/
theorem pSCM_events (c : CClient) (m : Char) (isAdding : Bool)
    (params : List String) (ms : MRes) :
    ∃ ex, (processSingleChannelMode c m isAdding params ms).1.events = ms.events ++ ex ∧
      ∀ e ∈ ex, ∀ cids r, e ≠ Event.broadcast cids r := by
  unfold processSingleChannelMode handleKeyMode handleLimitMode handleOperatorMode
  repeat' split
  all_goals first
    | (refine ⟨[], ?_, ?_⟩ <;> simp <;> done)
    | (refine ⟨_, rfl, ?_⟩; simp; done)
    | (dsimp only; split <;> first
        | (refine ⟨[], ?_, ?_⟩ <;> simp <;> done)
        | (refine ⟨_, rfl, ?_⟩; simp; done))

/-- The flag gate: a toggle whose letter's channel-level flag already
equals the requested direction returns the state unchanged and `false`. -/
theorem pSCM_gate (c : CClient) (m : Char) (isAdding : Bool)
    (params : List String) (ms : MRes)
    (hm : m ∈ (['i', 't', 'k', 'l', 'o'] : List Char))
    (hflag : ms.ch.modes.get m = isAdding) :
    processSingleChannelMode c m isAdding params ms = (ms, false) := by
  fin_cases hm <;>
    simp [processSingleChannelMode, handleKeyMode, handleLimitMode,
      handleOperatorMode, Channel.setMode, hflag]

/-- A `setMode` that reports a change leaves the flag at the written value. -/
theorem setMode_get_after (ch : Channel) (c : Char) (b : Bool)
    (hc : c ∈ (['i', 't', 'k', 'l', 'o'] : List Char))
    (hb : (ch.setMode c b).2 = true) :
    (ch.setMode c b).1.modes.get c = b := by
  by_cases h : b = ch.modes.get c
  · rw [Channel.setMode, if_pos h] at hb
    exact absurd hb (by simp)
  · rw [Channel.setMode, if_neg h] at hb ⊢
    fin_cases hc <;> simp [Modes.get, Modes.set]

/-- A `handleKeyMode` that reports a change leaves the `k` flag at the
direction it applied. -/
theorem handleKeyMode_flag_after (c : CClient) (isAdding : Bool)
    (params : List String) (ms : MRes)
    (hb : (handleKeyMode c isAdding params ms).2 = true) :
    (handleKeyMode c isAdding params ms).1.ch.modes.get 'k' = isAdding := by
  unfold handleKeyMode at hb ⊢
  by_cases h1 : isAdding = ms.ch.modes.get 'k'
  · rw [if_pos h1] at hb
    exact absurd hb (by simp)
  · rw [if_neg h1] at hb ⊢
    by_cases h2 : isAdding = true ∧ ms.paramIndex < params.length
    · rw [if_pos h2] at hb ⊢
      by_cases h3 : isAlphanumeric (params.getD ms.paramIndex "") = true
      · rw [if_pos h3]
        obtain ⟨ha, _⟩ := h2
        rw [ha] at h1 ⊢
        simp only [Channel.setKey]
        rw [Channel.setMode, if_neg (by simpa using h1)]
        simp [Modes.get, Modes.set]
      · rw [if_neg h3] at hb
        exact absurd hb (by simp)
    · rw [if_neg h2] at hb ⊢
      by_cases h4 : isAdding = true
      · rw [if_pos h4] at hb
        exact absurd hb (by simp)
      · rw [if_neg h4] at hb ⊢
        have ha : isAdding = false := by
          cases isAdding
          · rfl
          · exact absurd rfl h4
        rw [ha] at h1 ⊢
        simp only [Channel.removeKey]
        rw [Channel.setMode, if_neg (by simpa using h1)]
        simp [Modes.get, Modes.set]

/-- A `handleLimitMode` that reports a change leaves the `l` flag at the
direction it applied. -/
theorem handleLimitMode_flag_after (c : CClient) (isAdding : Bool)
    (params : List String) (ms : MRes)
    (hb : (handleLimitMode c isAdding params ms).2 = true) :
    (handleLimitMode c isAdding params ms).1.ch.modes.get 'l' = isAdding := by
  unfold handleLimitMode at hb ⊢
  by_cases h1 : isAdding = ms.ch.modes.get 'l'
  · rw [if_pos h1] at hb
    exact absurd hb (by simp)
  · rw [if_neg h1] at hb ⊢
    by_cases h2 : isAdding = true ∧ ms.paramIndex < params.length
    · rw [if_pos h2] at hb ⊢
      by_cases h3 : cppAtoi (params.getD ms.paramIndex "") > 0
      · rw [if_pos h3]
        obtain ⟨ha, _⟩ := h2
        rw [ha] at h1 ⊢
        simp only [Channel.setUserLimit]
        rw [if_pos h3]
        rw [Channel.setMode, if_neg (by simpa using h1)]
        simp [Modes.get, Modes.set]
      · rw [if_neg h3] at hb
        exact absurd hb (by simp)
    · rw [if_neg h2] at hb ⊢
      by_cases h4 : isAdding = true
      · rw [if_pos h4] at hb
        exact absurd hb (by simp)
      · rw [if_neg h4] at hb ⊢
        have ha : isAdding = false := by
          cases isAdding
          · rfl
          · exact absurd rfl h4
        rw [ha] at h1 ⊢
        simp only [Channel.removeUserLimit]
        rw [Channel.setMode, if_neg (by simpa using h1)]
        simp [Modes.get, Modes.set]

/-- A `handleOperatorMode` in the `+` direction that reports a change
leaves the `o` flag raised. -/
theorem handleOperatorMode_flag_after (c : CClient) (params : List String)
    (ms : MRes)
    (hb : (handleOperatorMode c true params ms).2 = true) :
    (handleOperatorMode c true params ms).1.ch.modes.get 'o' = true := by
  unfold handleOperatorMode at hb ⊢
  by_cases h1 : (true : Bool) = ms.ch.modes.get 'o'
  · rw [if_pos h1] at hb
    exact absurd hb (by simp)
  · rw [if_neg h1] at hb ⊢
    by_cases h2 : ms.paramIndex < params.length
    · rw [if_pos h2] at hb ⊢
      by_cases h3 : ¬ms.ch.isClientInChannel (params.getD ms.paramIndex "") = true
      · rw [if_pos h3] at hb
        exact absurd hb (by simp)
      · rw [if_neg h3]
        simp only [if_pos]
        rcases hfind : mapFind (params.getD ms.paramIndex "") ms.ch.users with _ | tc
        · have h3' : ms.ch.isClientInChannel (params.getD ms.paramIndex "") = true := by
            simpa using h3
          unfold Channel.isClientInChannel at h3'
          rw [hfind] at h3'
          simp at h3'
        · unfold Channel.addOperator
          rw [hfind]
          simp only []
          rw [Channel.setMode, if_neg (by simpa using h1)]
          simp [Modes.get, Modes.set]
    · rw [if_neg h2] at hb
      exact absurd hb (by simp)

/-- After a reported change of `i`, `t`, `k`, `l`, or of `+o`, the letter's
flag equals the direction that was applied. -/
theorem pSCM_flag_after (c : CClient) (m : Char) (isAdding : Bool)
    (params : List String) (ms : MRes)
    (hm : m ∈ (['i', 't', 'k', 'l'] : List Char) ∨ (m = 'o' ∧ isAdding = true))
    (hb : (processSingleChannelMode c m isAdding params ms).2 = true) :
    (processSingleChannelMode c m isAdding params ms).1.ch.modes.get m = isAdding := by
  have e_i : processSingleChannelMode c 'i' isAdding params ms =
      ({ ms with ch := (ms.ch.setMode 'i' isAdding).1 }, (ms.ch.setMode 'i' isAdding).2) := rfl
  have e_t : processSingleChannelMode c 't' isAdding params ms =
      ({ ms with ch := (ms.ch.setMode 't' isAdding).1 }, (ms.ch.setMode 't' isAdding).2) := rfl
  have e_k : processSingleChannelMode c 'k' isAdding params ms =
      handleKeyMode c isAdding params ms := rfl
  have e_l : processSingleChannelMode c 'l' isAdding params ms =
      handleLimitMode c isAdding params ms := rfl
  have e_o : processSingleChannelMode c 'o' isAdding params ms =
      handleOperatorMode c isAdding params ms := rfl
  rcases hm with hm | ⟨hm, ha⟩
  · fin_cases hm
    · rw [e_i] at hb ⊢
      exact setMode_get_after ms.ch 'i' isAdding (by simp) hb
    · rw [e_t] at hb ⊢
      exact setMode_get_after ms.ch 't' isAdding (by simp) hb
    · rw [e_k] at hb ⊢
      exact handleKeyMode_flag_after c isAdding params ms hb
    · rw [e_l] at hb ⊢
      exact handleLimitMode_flag_after c isAdding params ms hb
  · subst hm
    subst ha
    rw [e_o] at hb ⊢
    exact handleOperatorMode_flag_after c params ms hb

/-- Applying the same toggle a second time (for `i`, `t`, `k`, `l`, or
`+o`) is a no-op: the gate fires because the first application left the
flag equal to the direction. -/
theorem pSCM_second_noop (c : CClient) (m : Char) (isAdding : Bool)
    (params params2 : List String) (ms : MRes)
    (hm : m ∈ (['i', 't', 'k', 'l'] : List Char) ∨ (m = 'o' ∧ isAdding = true))
    (hb : (processSingleChannelMode c m isAdding params ms).2 = true) :
    processSingleChannelMode c m isAdding params2
      (processSingleChannelMode c m isAdding params ms).1 =
      ((processSingleChannelMode c m isAdding params ms).1, false) :=
  pSCM_gate c m isAdding params2 _
    (by rcases hm with hm | ⟨hm, _⟩
        · simp at hm
          rcases hm with h | h | h | h <;> subst h <;> simp
        · subst hm
          simp)
    (pSCM_flag_after c m isAdding params ms hm hb)

/-- A toggle whose handler reports no change contributes nothing to the
aggregate broadcast string. -/
theorem modeLoop_skip (c : CClient) (params : List String) (m : Char)
    (rest : List Char) (isAdding : Bool) (ms : MRes) (acc : String)
    (hb : (processSingleChannelMode c m isAdding params ms).2 = false)
    (hpm : ¬(m = '+' ∨ m = '-')) :
    modeLoop c params (m :: rest) isAdding ms acc =
      modeLoop c params rest isAdding
        (processSingleChannelMode c m isAdding params ms).1 acc := by
  rw [modeLoop, if_neg hpm]
  dsimp only
  rw [hb]
  simp

/-- The whole mode-string loop appends only per-client replies. -/
theorem modeLoop_events (c : CClient) (params : List String) :
    ∀ (mchars : List Char) (isAdding : Bool) (ms : MRes) (acc : String),
    ∃ ex, (modeLoop c params mchars isAdding ms acc).1.events = ms.events ++ ex ∧
      ∀ e ∈ ex, ∀ cids r, e ≠ Event.broadcast cids r := by
  intro mchars
  induction mchars with
  | nil => exact fun isAdding ms acc => ⟨[], by simp [modeLoop]⟩
  | cons m rest ih =>
    intro isAdding ms acc
    by_cases hpm : m = '+' ∨ m = '-'
    · rw [modeLoop, if_pos hpm]
      exact ih _ ms acc
    · rw [modeLoop, if_neg hpm]
      obtain ⟨ex1, h1, h1b⟩ := pSCM_events c m isAdding params ms
      obtain ⟨ex2, h2, h2b⟩ := ih isAdding
        (processSingleChannelMode c m isAdding params ms).1
        (if (processSingleChannelMode c m isAdding params ms).2 then
          acc ++ modeTag isAdding m else acc)
      refine ⟨ex1 ++ ex2, ?_, ?_⟩
      · rw [h2, h1, List.append_assoc]
      · intro e he cids r
        rcases List.mem_append.1 he with h | h
        · exact h1b e h cids r
        · exact h2b e h cids r

/-- The broadcast block of `processChannelModes`: besides the handlers'
per-client replies, either no broadcast at all (empty aggregate string) or
exactly one MODE broadcast carrying the aggregate string. -/
theorem processChannelModes_broadcast (c : CClient) (params : List String)
    (ch : Channel) (evs : List Event) :
    ∃ extra,
      (modeLoop c params (params.getD 1 "").data true ⟨ch, 2, evs⟩ "").1.events =
        evs ++ extra ∧
      (∀ e ∈ extra, ∀ cids r, e ≠ Event.broadcast cids r) ∧
      ((modeLoop c params (params.getD 1 "").data true ⟨ch, 2, evs⟩ "").2 = "" →
        (processChannelModes c params ch evs).2 = evs ++ extra) ∧
      ((modeLoop c params (params.getD 1 "").data true ⟨ch, 2, evs⟩ "").2 ≠ "" →
        (processChannelModes c params ch evs).2 = evs ++ extra ++
          [Event.broadcast
            (bmembers (modeLoop c params (params.getD 1 "").data true ⟨ch, 2, evs⟩ "").1.ch)
            (Reply.modeChange c.nick c.user
              (modeLoop c params (params.getD 1 "").data true ⟨ch, 2, evs⟩ "").1.ch.channelName
              (modeLoop c params (params.getD 1 "").data true ⟨ch, 2, evs⟩ "").2)]) := by
  obtain ⟨extra, h1, h2⟩ := modeLoop_events c params (params.getD 1 "").data true ⟨ch, 2, evs⟩ ""
  dsimp only at h1
  refine ⟨extra, h1, h2, fun hempty => ?_, fun hne => ?_⟩
  · unfold processChannelModes
    rw [if_pos hempty, ← h1]
  · unfold processChannelModes
    rw [if_neg hne, ← h1]

/-- C6, amended.  (1) A toggle whose letter's channel-level flag already
equals the direction is a silent no-op; (2) hence applying the same toggle
a second time — for `i`, `t`, `k`, `l` and for `+o`; a reported `-o`
leaves the flag only when it actually demoted someone — is a no-op;
(3) a toggle whose handler reports no change does not add its letter to
the aggregate string; (4) the handlers enqueue only per-client replies,
and after the loop either no MODE broadcast is emitted (empty aggregate)
or exactly one, carrying the aggregated signed letters.  (The original
claim fails because a reported change need not be a state change: `-o` on
a member who is not an operator reports a change, lands in the broadcast,
and alters nothing.) -/
theorem C6_mode_toggle_broadcast (c : CClient) :
    (∀ (m : Char) (isAdding : Bool) (params : List String) (ms : MRes),
      m ∈ (['i', 't', 'k', 'l', 'o'] : List Char) →
      ms.ch.modes.get m = isAdding →
      processSingleChannelMode c m isAdding params ms = (ms, false)) ∧
    (∀ (m : Char) (isAdding : Bool) (params params2 : List String) (ms : MRes),
      m ∈ (['i', 't', 'k', 'l'] : List Char) ∨ (m = 'o' ∧ isAdding = true) →
      (processSingleChannelMode c m isAdding params ms).2 = true →
      processSingleChannelMode c m isAdding params2
        (processSingleChannelMode c m isAdding params ms).1 =
        ((processSingleChannelMode c m isAdding params ms).1, false)) ∧
    (∀ (params : List String) (m : Char) (rest : List Char) (isAdding : Bool)
        (ms : MRes) (acc : String),
      (processSingleChannelMode c m isAdding params ms).2 = false →
      ¬(m = '+' ∨ m = '-') →
      modeLoop c params (m :: rest) isAdding ms acc =
        modeLoop c params rest isAdding
          (processSingleChannelMode c m isAdding params ms).1 acc) ∧
    (∀ (params : List String) (ch : Channel) (evs : List Event),
      ∃ extra,
        (modeLoop c params (params.getD 1 "").data true ⟨ch, 2, evs⟩ "").1.events =
          evs ++ extra ∧
        (∀ e ∈ extra, ∀ cids r, e ≠ Event.broadcast cids r) ∧
        ((modeLoop c params (params.getD 1 "").data true ⟨ch, 2, evs⟩ "").2 = "" →
          (processChannelModes c params ch evs).2 = evs ++ extra) ∧
        ((modeLoop c params (params.getD 1 "").data true ⟨ch, 2, evs⟩ "").2 ≠ "" →
          (processChannelModes c params ch evs).2 = evs ++ extra ++
            [Event.broadcast
              (bmembers (modeLoop c params (params.getD 1 "").data true
                ⟨ch, 2, evs⟩ "").1.ch)
              (Reply.modeChange c.nick c.user
                (modeLoop c params (params.getD 1 "").data true
                  ⟨ch, 2, evs⟩ "").1.ch.channelName
                (modeLoop c params (params.getD 1 "").data true
                  ⟨ch, 2, evs⟩ "").2)])) :=
  ⟨fun m isAdding params ms => pSCM_gate c m isAdding params ms,
   fun m isAdding params params2 ms => pSCM_second_noop c m isAdding params params2 ms,
   fun params m rest isAdding ms acc => modeLoop_skip c params m rest isAdding ms acc,
   fun params ch evs => processChannelModes_broadcast c params ch evs⟩

/-- C6 witness: on `chO` the `t` flag is already set, so a second `+t` is
rejected by the gate: state unchanged, no change reported. -/
theorem C6_witness :
    processSingleChannelMode aliceC 't' true ["#c"] ⟨chO, 2, []⟩ = (⟨chO, 2, []⟩, false) :=
  (C6_mode_toggle_broadcast aliceC).1 't' true ["#c"] ⟨chO, 2, []⟩
    (by decide) (by decide)

/-- The existing-channel JOIN arm never touches other channels' map
entries. -/
theorem joinExistingCh_channels_other (st : SrvState) (c : CClient)
    (chanName : String) (ch : Channel) (keys : List String) (q : String)
    (hq : q ≠ chanName) :
    mapFind q (joinExistingCh st c chanName ch keys).channels = mapFind q st.channels := by
  unfold joinExistingCh pushReply
  repeat' split
  all_goals first
    | rfl
    | (exact mapFind_insert_ne q chanName hq _ _)

/-- The existing-channel JOIN arm never deletes a channel. -/
theorem joinExistingCh_present (st : SrvState) (c : CClient) (chanName : String)
    (ch : Channel) (keys : List String) (q : String)
    (h : (mapFind q st.channels).isSome = true) :
    (mapFind q (joinExistingCh st c chanName ch keys).channels).isSome = true := by
  by_cases hq : q = chanName
  · subst hq
    unfold joinExistingCh pushReply
    repeat' split
    all_goals first
      | exact h
      | simp
  · rw [joinExistingCh_channels_other st c chanName ch keys q hq]
    exact h

/-- The JOIN loop never deletes a channel. -/
theorem joinLoop_present (c : CClient) :
    ∀ (chans keys : List String) (st : SrvState) (q : String),
    (mapFind q st.channels).isSome = true →
    (mapFind q (joinLoop st c chans keys).channels).isSome = true := by
  intro chans
  induction chans with
  | nil =>
    intro keys st q h
    simpa [joinLoop] using h
  | cons x rest ih =>
    intro keys st q h
    rw [joinLoop]
    by_cases hs : startsChan x = true
    · rw [if_neg (not_not_intro hs)]
      cases hf : mapFind x st.channels with
      | some chx =>
        simp only [hf]
        exact joinExistingCh_present st c x chx keys q h
      | none =>
        simp only [hf]
        apply ih
        by_cases hqx : q = x
        · subst hqx
          simp
        · simpa [mapFind_insert_ne q x hqx] using h
    · rw [if_pos hs]
      exact ih keys st q h

/-- C2, amended.  The JOIN loop walks the channel list in order but stops
at the first listed channel that already exists on the server: listed
channels before it (with a `#`/`&` prefix; they did not exist) are each
created, while channels listed after it are not processed at all — one
that did not exist still does not exist afterwards.  (And since the key
iterator only advances inside the terminal existing-channel arm, the key
checked there is always the *first* key of the key list, not the
positionally matching one.) -/
theorem C2_join_stops_at_existing (c : CClient) (keys : List String)
    (e : String) (post : List String) (chE : Channel)
    (he1 : startsChan e = true) :
    ∀ (pre : List String) (st : SrvState), pre.Nodup →
    (∀ x ∈ pre, startsChan x = true → mapFind x st.channels = none) →
    e ∉ pre → mapFind e st.channels = some chE →
    (∀ x ∈ pre, startsChan x = true →
      (mapFind x (joinLoop st c (pre ++ e :: post) keys).channels).isSome = true) ∧
    (∀ q, q ∉ pre → q ≠ e → mapFind q st.channels = none →
      mapFind q (joinLoop st c (pre ++ e :: post) keys).channels = none) := by
  intro pre
  induction pre with
  | nil =>
    intro st _ _ _ he2
    constructor
    · intro x hx
      exact absurd hx (List.not_mem_nil x)
    · intro q hq1 hq2 hq3
      simp only [List.nil_append]
      rw [joinLoop, if_neg (not_not_intro he1)]
      simp only [he2]
      rw [joinExistingCh_channels_other st c e chE keys q hq2]
      exact hq3
  | cons x pre2 ih =>
    intro st hnodup hpre hpe he2
    have hx_pre2 : x ∉ pre2 := (List.nodup_cons.1 hnodup).1
    have hnodup2 : pre2.Nodup := (List.nodup_cons.1 hnodup).2
    have hpe2 : e ∉ pre2 := fun h => hpe (List.mem_cons_of_mem x h)
    have hxe : e ≠ x := fun h => hpe (h ▸ List.mem_cons_self x pre2)
    simp only [List.cons_append]
    rw [joinLoop]
    by_cases hs : startsChan x = true
    · rw [if_neg (not_not_intro hs)]
      have hxnone : mapFind x st.channels = none :=
        hpre x (List.mem_cons_self x pre2) hs
      simp only [hxnone]
      obtain ⟨ihA, ihB⟩ := ih
        { st with
          channels := mapInsert x (Channel.mkChannel x c) st.channels
          events := st.events ++ [Event.reply c.cid (greetReply c (Channel.mkChannel x c))] }
        hnodup2
        (fun y hy hsy => by
          have hyx : y ≠ x := fun h => hx_pre2 (h ▸ hy)
          simp only []
          rw [mapFind_insert_ne y x hyx]
          exact hpre y (List.mem_cons_of_mem x hy) hsy)
        hpe2
        (by
          simp only []
          rw [mapFind_insert_ne e x hxe]
          exact he2)
      constructor
      · intro y hy hsy
        rcases List.mem_cons.1 hy with hyx | hy2
        · subst hyx
          apply joinLoop_present
          simp
        · exact ihA y hy2 hsy
      · intro q hq1 hq2 hq3
        have hqx : q ≠ x := fun h => hq1 (h ▸ List.mem_cons_self x pre2)
        have hq1' : q ∉ pre2 := fun h => hq1 (List.mem_cons_of_mem x h)
        apply ihB q hq1' hq2
        simp only []
        rw [mapFind_insert_ne q x hqx]
        exact hq3
    · rw [if_pos hs]
      obtain ⟨ihA, ihB⟩ := ih st hnodup2
        (fun y hy hsy => hpre y (List.mem_cons_of_mem x hy) hsy) hpe2 he2
      constructor
      · intro y hy hsy
        rcases List.mem_cons.1 hy with hyx | hy2
        · subst hyx
          exact absurd hsy hs
        · exact ihA y hy2 hsy
      · intro q hq1 hq2 hq3
        exact ihB q (fun h => hq1 (List.mem_cons_of_mem x h)) hq2 hq3

/-- C2 witness: `JOIN #n,#a,#b` against a server holding only `#a` creates
`#n`, processes `#a`, and never creates `#b`. -/
theorem C2_witness :
    (mapFind "#n" (joinLoop stA aliceC (["#n"] ++ "#a" :: ["#b"]) []).channels).isSome =
      true ∧
    mapFind "#b" (joinLoop stA aliceC (["#n"] ++ "#a" :: ["#b"]) []).channels = none :=
  have h := C2_join_stops_at_existing aliceC [] "#a" ["#b"] chA (by decide) ["#n"] stA
    (by decide) (by decide) (by decide) (by decide)
  ⟨h.1 "#n" (by decide) (by decide), h.2 "#b" (by decide) (by decide) (by decide)⟩

/-- A list is a prefix of itself followed by anything. -/
theorem isPrefixOf_append_self (l t : List Char) : l.isPrefixOf (l ++ t) = true := by
  induction l with
  | nil => simp [List.isPrefixOf]
  | cons a l2 ih => simp [List.isPrefixOf, ih]

/-- `std::string::find` locates a token starting with `':'` exactly at the
first colon of the line when everything before that colon is colon-free. -/
theorem strFind_at_first_colon (tt w : List Char) :
    ∀ (u : List Char), ':' ∉ u →
    strFind (':' :: tt) (u ++ ':' :: (tt ++ w)) = some u.length := by
  intro u
  induction u with
  | nil =>
    intro _
    rw [List.nil_append, strFind,
      if_pos (show (':' :: tt).isPrefixOf (':' :: (tt ++ w)) = true by
        simp [List.isPrefixOf, isPrefixOf_append_self])]
    rfl
  | cons a u2 ih =>
    intro hu
    have ha : a ≠ ':' := by
      intro h
      exact hu (by simp [h])
    have hpre : ¬(':' :: tt).isPrefixOf (a :: (u2 ++ ':' :: (tt ++ w))) = true := by
      simp [List.isPrefixOf, Ne.symm ha]
    rw [List.cons_append, strFind, if_neg hpre,
      ih (fun h => hu (List.mem_cons_of_mem a h))]
    rfl

/-- The parser loop in plain-parameter mode: valid non-colon tokens are
appended as params until the first token starting with `':'`, which sets
the trailing from the original line and stops. -/
theorem parseLoop_params (msg : String) (ps : List String) (t : String)
    (rest : List String) :
    ∀ (acc : PMsg),
    (∀ p ∈ ps, isValidParam p = true ∧ cpp_at0 p ≠ ':') →
    cpp_at0 t = ':' →
    parseLoop msg (ps ++ t :: rest) acc false false =
      { acc with params := acc.params ++ ps,
                 trailing := ft_trim (afterTok msg t) } := by
  induction ps with
  | nil =>
    intro acc _ ht
    simp only [List.nil_append]
    rw [parseLoop, if_neg (by simp), if_neg (by simp), if_pos ht]
    simp
  | cons p ps2 ih =>
    intro acc hps ht
    have hv := (hps p (List.mem_cons_self p ps2)).1
    have hcol := (hps p (List.mem_cons_self p ps2)).2
    simp only [List.cons_append]
    rw [parseLoop, if_neg (by simp), if_neg (by simp), if_neg hcol, if_pos hv]
    rw [ih _ (fun q hq => hps q (List.mem_cons_of_mem p hq)) ht]
    simp

/-- C5, amended.  When the parser reaches a token beginning with `':'`
after the command, the trailing is `ft_trim` of the suffix of the original
line one character past the **first occurrence of that token's text** in
the line.  When no earlier occurrence exists — in particular whenever the
command token and the params contain no `':'`, stated here as the token
sitting right after a colon-free prefix `u` — this is the substring from
the character after that leading `':'` to end-of-line, trimmed, with
embedded `':'` and interior spaces preserved, as the claim says. -/
theorem C5_trailing_from_first_occurrence (message : String) (cmdTok t : String)
    (ps rest : List String) (u w tt : List Char)
    (htok : tokenize (ft_trim message) = cmdTok :: (ps ++ t :: rest))
    (hat : cpp_at0 (ft_trim message) ≠ '@')
    (hps : ∀ p ∈ ps, isValidParam p = true ∧ cpp_at0 p ≠ ':')
    (ht : t.data = ':' :: tt)
    (hm : message.data = u ++ ':' :: (tt ++ w))
    (hu : ':' ∉ u) :
    (parseMessage message).trailing = ft_trim (String.mk (tt ++ w)) := by
  have hmsg : message ≠ "" := by
    intro h
    subst h
    simp [tokenize, ft_trim, splitBy] at htok
  have hcol_t : cpp_at0 t = ':' := by
    rw [cpp_at0, ht]
    rfl
  have hfind : strFind t.data message.data = some u.length := by
    rw [ht, hm]
    exact strFind_at_first_colon tt w u hu
  have hdrop : (u ++ ':' :: (tt ++ w)).drop (u.length + 1) = tt ++ w := by
    have hsplit : u ++ ':' :: (tt ++ w) = (u ++ [':']) ++ (tt ++ w) := by simp
    have hlen : u.length + 1 = (u ++ [':']).length := by simp
    rw [hsplit, hlen, List.drop_left]
  have hafter : afterTok message t = String.mk (tt ++ w) := by
    unfold afterTok
    rw [hfind]
    show String.mk (message.data.drop (u.length + 1)) = String.mk (tt ++ w)
    rw [hm, hdrop]
  unfold parseMessage
  rw [if_neg hmsg, htok,
    show (decide (cpp_at0 (ft_trim message) = '@')) = false from decide_eq_false hat]
  rw [parseLoop, if_neg (by simp), if_pos rfl]
  rw [parseLoop_params message ps t rest _ hps hcol_t]
  show ft_trim (afterTok message t) = ft_trim (String.mk (tt ++ w))
  rw [hafter]

/-- C5 witness: `"CMD a :hello world"` — the command is colon-free, so the
trailing is the text after the reached `':'` with its interior space
preserved. -/
theorem C5_witness :
    (parseMessage "CMD a :hello world").trailing =
      ft_trim (String.mk ("hello".data ++ " world".data)) :=
  C5_trailing_from_first_occurrence "CMD a :hello world" "CMD" ":hello" ["a"]
    ["world"] "CMD a ".data " world".data "hello".data (by decide) (by decide)
    (by decide) (by decide) (by decide) (by decide)

end IrcSub
